import Mathlib

/-!
Verification of `src/lib/articles.ts`: the article discovery and metadata
aggregation utility of the portfolio site.

The TypeScript source is embedded shallowly:

* File names and path segments are `List Char` (JavaScript strings).
* The dynamic `import(...)` of a content unit is modelled by an explicit
  environment function `importFn : Filename → Except JsError JsModule`; a
  rejected promise is `.error`, a resolved module is `.ok`.
* The TypeScript `interface Article` declares `title`, `description`,
  `author`, `date`, `isFeatured` as required fields, but the cast
  `(await import(...)) as { article: Article }` is unchecked at runtime, so
  the runtime value of the `article` export is modelled with every field
  optional (`none` = property absent / `undefined`), plus an optional
  `slug` property that the interface does not declare but a JavaScript
  object may carry.
* `+new Date(s)` is the host's date parser, modelled by an environment
  function `jsDate : String → Option Int`, where `none` models `NaN`
  (an invalid date).  `new Date(undefined)` is also `NaN`.
* `Promise.all` is modelled by `promiseAll`, parameterised by a
  `schedule : List Nat`: the order in which the per-unit loads settle.
  `Promise.all` rejects with the first rejection in settle order and
  otherwise resolves with the results in input (index) order.
* `Array.prototype.sort` with a comparator is a stable sort; it is modelled
  by the stable insertion sort `jsSort` over the boolean relation
  "comparator does not return a positive number" (a `NaN` comparator result
  compares as not-positive, i.e. causes no reordering).
-/

/-- A JavaScript string, as a list of characters. -/
abbrev Filename := List Char

/-- One path segment (a directory or file name) of a filesystem path. -/
abbrev Segment := List Char

/-- An error value carried by a rejected promise. -/
abbrev JsError := String

deriving instance DecidableEq for Except

/-- Runtime value of the `article` export of a content unit.  The TypeScript
`interface Article` declares `title`, `description`, `author`, `date`,
`isFeatured` as required and `isPrivate` as optional, but the `as` cast in
`importArticle` performs no runtime check, so every field may be absent at
runtime (`none` = the property is missing / `undefined`).  A runtime object
may also carry a `slug` property even though the interface does not declare
one. -/
structure Article where
  title : Option String := none
  description : Option String := none
  author : Option String := none
  date : Option String := none
  isPrivate : Option Bool := none
  isFeatured : Option Bool := none
  slug : Option Filename := none
deriving DecidableEq

/-- The module obtained by `await import(...)`: it may or may not have an
`article` export.  (The `default` export is irrelevant to the aggregator.) -/
structure JsModule where
  article : Option Article := none
deriving DecidableEq

/-- Output record of `importArticle`: the source's `ArticleWithSlug`
(`Article` plus a `slug`), with the metadata fields kept optional because
the runtime cast is unchecked. -/
structure ArticleWithSlug where
  slug : Filename
  title : Option String
  description : Option String
  author : Option String
  date : Option String
  isPrivate : Option Bool
  isFeatured : Option Bool
deriving DecidableEq

/-- The characters of the fixed entry file name `page.mdx`. -/
def pageMdx : List Char := "page.mdx".data

/-- The characters of the suffix `/page.mdx` (first alternative of the
regular expression `(\/page)?\.mdx$`). -/
def pageSuffixChars : List Char := "/page.mdx".data

/-- The characters of the suffix `.mdx` (the regular expression
`(\/page)?\.mdx$` with the optional group absent). -/
def mdxSuffixChars : List Char := ".mdx".data

/-- `articleFilename.replace(/(\/page)?\.mdx$/, '')` (line 25 of
`articles.ts`).  The match is anchored at the end of the string, so the
replacement strips the suffix `/page.mdx` when present (the leftmost match),
otherwise the suffix `.mdx` when present, otherwise nothing. -/
def stripArticleSuffix (articleFilename : Filename) : Filename :=
  if pageSuffixChars <:+ articleFilename then
    articleFilename.take (articleFilename.length - 9)
  else if mdxSuffixChars <:+ articleFilename then
    articleFilename.take (articleFilename.length - 4)
  else articleFilename

/-- Matching of one file path against the glob pattern `*/page.mdx`: the
path must consist of exactly one subdirectory segment (`*`: non-empty, a
path separator cannot occur inside a segment) followed by the literal entry
file name `page.mdx`.  A match yields the relative file name
`<subdirectory>/page.mdx`; anything else (a file at the root, a deeper
path, a different entry file name) yields nothing. -/
def articleMatch : List Segment → Option Filename
  | [d, f] =>
    if d ≠ [] ∧ '/' ∉ d ∧ f = pageMdx then some (d ++ '/' :: pageMdx) else none
  | _ => none

/-- `glob('*/page.mdx', { cwd: './src/app/articles' })` (lines 31-33 of
`articles.ts`).  The filesystem under the content root is a list of file
paths in discovery order, each path a list of segments; the call returns
the matching relative file names in discovery order, silently skipping
non-matching paths. -/
def globArticles (fs : List (List Segment)) : List Filename :=
  fs.filterMap articleMatch

/-- The object literal `{ slug: derived, ...article }` (lines 24-27 of
`articles.ts`): the `slug` property is assigned first, then the `article`
export is spread over it.  Spreading `undefined` adds nothing; spreading an
object copies its own properties over the ones already assigned, so an
`article.slug` property overrides the derived slug. -/
def spreadArticle (derived : Filename) : Option Article → ArticleWithSlug
  | none =>
    { slug := derived, title := none, description := none, author := none,
      date := none, isPrivate := none, isFeatured := none }
  | some article =>
    { slug := article.slug.getD derived, title := article.title,
      description := article.description, author := article.author,
      date := article.date, isPrivate := article.isPrivate,
      isFeatured := article.isFeatured }

/-- `importArticle` (lines 16-28 of `articles.ts`).  The dynamic import is
the environment function `importFn`; destructuring `let { article } = ...`
yields the module's optional `article` export, and the returned object is
`{ slug: articleFilename.replace(/(\/page)?\.mdx$/, ''), ...article }`.
A rejected import propagates; nothing else can fail. -/
def importArticle (importFn : Filename → Except JsError JsModule)
    (articleFilename : Filename) : Except JsError ArticleWithSlug :=
  match importFn articleFilename with
  | .error e => .error e
  | .ok m => .ok (spreadArticle (stripArticleSuffix articleFilename) m.article)

/-- `+new Date(d)` applied to a possibly-absent date property: the host date
parser `jsDate` on a present string, and `NaN` (`none`) on `undefined`. -/
def jsDateVal (jsDate : String → Option Int) : Option String → Option Int
  | none => none
  | some s => jsDate s

/-- The comparator `(a, z) => +new Date(z.date) - +new Date(a.date)` (line
42 of `articles.ts`).  `none` models a `NaN` result: a subtraction involving
an invalid date. -/
def sortCompare (jsDate : String → Option Int) (a z : ArticleWithSlug) : Option Int :=
  match jsDateVal jsDate z.date, jsDateVal jsDate a.date with
  | some x, some y => some (x - y)
  | _, _ => none

/-- The ordering used by the engine's stable sort: `a` may stay before `z`
exactly when the comparator does not return a positive number.  A `NaN`
comparator result is not positive, so it causes no reordering. -/
def sortLe (jsDate : String → Option Int) (a z : ArticleWithSlug) : Bool :=
  match sortCompare jsDate a z with
  | some v => decide (v ≤ 0)
  | none => true

/-- Insert `a` into the sorted list `l`, before the first element `b` with
`le a b`; used by the stable sort `jsSort`. -/
def orderedInsert (le : α → α → Bool) (a : α) : List α → List α
  | [] => [a]
  | b :: l => if le a b then a :: b :: l else b :: orderedInsert le a l

/-- `Array.prototype.sort(comparator)`: a stable comparison sort.  Elements
are inserted left to right, each before the first already-placed element it
may precede, so elements that compare equal (or whose comparison is `NaN`)
keep their input order. -/
def jsSort (le : α → α → Bool) : List α → List α
  | [] => []
  | a :: l => orderedInsert le a (jsSort le l)

/-- Resolve a list of settled promises in input order, provided every one of
them is fulfilled; the first rejection aborts. -/
def collectOks : List (Except JsError α) → Except JsError (List α)
  | [] => .ok []
  | .error e :: _ => .error e
  | .ok a :: ts =>
    match collectOks ts with
    | .error e => .error e
    | .ok as => .ok (a :: as)

/-- The error of the first task, in settle order `schedule`, that rejected;
`none` when no task inspected by the schedule rejected. -/
def firstSettledError (tasks : List (Except JsError α)) : List Nat → Option JsError
  | [] => none
  | i :: rest =>
    match tasks[i]? with
    | some (.error e) => some e
    | _ => firstSettledError tasks rest

/-- `Promise.all(tasks)` under the settle order `schedule` (a permutation of
the task indices): it rejects with the first rejection in settle order, and
otherwise fulfills with the results in input (index) order — never in
settle order. -/
def promiseAll (tasks : List (Except JsError α)) (schedule : List Nat) :
    Except JsError (List α) :=
  match firstSettledError tasks schedule with
  | some e => .error e
  | none => collectOks tasks

/-- The ambient JavaScript environment of one call: the filesystem snapshot
under `./src/app/articles`, the dynamic-import behaviour of each content
unit, and the host's date parser. -/
structure JsEnv where
  fs : List (List Segment)
  importFn : Filename → Except JsError JsModule
  jsDate : String → Option Int

/-- The list of per-unit load tasks `articleFilenames.map(importArticle)`
(line 35 of `articles.ts`). -/
def articleTasks (env : JsEnv) : List (Except JsError ArticleWithSlug) :=
  (globArticles env.fs).map (importArticle env.importFn)

/-- The truthiness test `!article.isPrivate` from the filter on line 40:
`true` exactly when `isPrivate` is falsy (absent or `false`). -/
def isPrivateFalsy (article : ArticleWithSlug) : Bool :=
  ! article.isPrivate.getD false

/-- `getAllArticles` (lines 30-43 of `articles.ts`).  In the source the
flag defaults to `false`; here it is always passed explicitly.  Discovery,
concurrent loading joined by `Promise.all`, visibility filtering, then the
stable sort by the date comparator. -/
def getAllArticles (env : JsEnv) (schedule : List Nat) (includePrivate : Bool) :
    Except JsError (List ArticleWithSlug) :=
  let articleFilenames := globArticles env.fs
  match promiseAll (articleFilenames.map (importArticle env.importFn)) schedule with
  | .error e => .error e
  | .ok articles =>
    let filteredArticles := if includePrivate then articles
      else articles.filter isPrivateFalsy
    .ok (jsSort (sortLe env.jsDate) filteredArticles)

/-! Concrete content layouts used as test inputs.  Dates are taken from the
example scenario of the specification: `a` (2024-01-01), `b` (2025-01-10)
and `c` (2025-04-24, private). -/

/-- The relative file name `a/page.mdx`. -/
def fnameA : Filename := 'a' :: '/' :: pageMdx

/-- The relative file name `b/page.mdx`. -/
def fnameB : Filename := 'b' :: '/' :: pageMdx

/-- The relative file name `c/page.mdx`. -/
def fnameC : Filename := 'c' :: '/' :: pageMdx

/-- A well-formed public article dated 2024-01-01. -/
def articleA : Article :=
  { title := some "A", description := some "", author := some "Facundo",
    date := some "2024-01-01", isFeatured := some true }

/-- A well-formed public article dated 2025-01-10. -/
def articleB : Article :=
  { title := some "B", description := some "", author := some "Facundo",
    date := some "2025-01-10", isFeatured := some true }

/-- A well-formed private article dated 2025-04-24. -/
def articleC : Article :=
  { title := some "C", description := some "", author := some "Facundo",
    date := some "2025-04-24", isPrivate := some true, isFeatured := some true }

/-- A malformed article export: the `date` field is absent. -/
def articleNoDate : Article := { title := some "B" }

/-- An article export carrying its own `slug` property. -/
def articleSlugged : Article :=
  { title := some "A", date := some "2024-01-01", isFeatured := some true,
    slug := some "evil".data }

/-- A date parser agreeing with ISO-8601 ordering on the three dates used by
the concrete layouts and yielding `NaN` elsewhere. -/
def jsDateThree : String → Option Int := fun s =>
  if s = "2024-01-01" then some 100
  else if s = "2025-01-10" then some 200
  else if s = "2025-04-24" then some 300
  else none

/-- Environment with the three well-formed articles `a`, `b`, `c`. -/
def envGood : JsEnv :=
  { fs := [[['a'], pageMdx], [['b'], pageMdx], [['c'], pageMdx]],
    importFn := fun f =>
      if f = fnameA then .ok { article := some articleA }
      else if f = fnameB then .ok { article := some articleB }
      else if f = fnameC then .ok { article := some articleC }
      else .error "MODULE_NOT_FOUND",
    jsDate := jsDateThree }

/-- Environment with two importable units, the second of which has a
malformed metadata export (no `date` field). -/
def envTwo : JsEnv :=
  { fs := [[['a'], pageMdx], [['b'], pageMdx]],
    importFn := fun f =>
      if f = fnameA then .ok { article := some articleA }
      else if f = fnameB then .ok { article := some articleNoDate }
      else .error "MODULE_NOT_FOUND",
    jsDate := jsDateThree }

/-- Environment where the import of `b/page.mdx` rejects. -/
def envReject : JsEnv :=
  { fs := [[['a'], pageMdx], [['b'], pageMdx]],
    importFn := fun f =>
      if f = fnameA then .ok { article := some articleA }
      else .error "SyntaxError",
    jsDate := jsDateThree }

/-- Environment with an empty content root. -/
def envEmpty : JsEnv :=
  { fs := [], importFn := fun _ => .error "MODULE_NOT_FOUND",
    jsDate := fun _ => none }

/-- Import behaviour serving a module whose `article` export carries its own
`slug` property. -/
def importSlugged : Filename → Except JsError JsModule := fun f =>
  if f = fnameA then .ok { article := some articleSlugged }
  else .error "MODULE_NOT_FOUND"

/-- The record produced for `a/page.mdx` in `envGood` and `envTwo`. -/
def recA : ArticleWithSlug :=
  { slug := ['a'], title := some "A", description := some "",
    author := some "Facundo", date := some "2024-01-01",
    isPrivate := none, isFeatured := some true }

/-- The record produced for `b/page.mdx` in `envGood`. -/
def recB : ArticleWithSlug :=
  { slug := ['b'], title := some "B", description := some "",
    author := some "Facundo", date := some "2025-01-10",
    isPrivate := none, isFeatured := some true }

/-- The record produced for `c/page.mdx` in `envGood`. -/
def recC : ArticleWithSlug :=
  { slug := ['c'], title := some "C", description := some "",
    author := some "Facundo", date := some "2025-04-24",
    isPrivate := some true, isFeatured := some true }

/-- The record produced for the malformed `b/page.mdx` in `envTwo`. -/
def recNoDate : ArticleWithSlug :=
  { slug := ['b'], title := some "B", description := none, author := none,
    date := none, isPrivate := none, isFeatured := none }

/-! Lemmas about the stable sort. -/

theorem orderedInsert_perm (le : α → α → Bool) (a : α) (l : List α) :
    (orderedInsert le a l).Perm (a :: l) := by
  induction l with
  | nil => exact List.Perm.refl _
  | cons b t ih =>
    simp only [orderedInsert]
    by_cases h : le a b = true
    · simp [h]
    · simp only [h, if_false]
      exact (ih.cons b).trans (List.Perm.swap a b t)

theorem jsSort_perm (le : α → α → Bool) (l : List α) : (jsSort le l).Perm l := by
  induction l with
  | nil => exact List.Perm.refl _
  | cons a t ih =>
    exact (orderedInsert_perm le a (jsSort le t)).trans (ih.cons a)

theorem mem_orderedInsert {le : α → α → Bool} {a b : α} {l : List α}
    (h : b ∈ orderedInsert le a l) : b = a ∨ b ∈ l := by
  have := (orderedInsert_perm le a l).mem_iff.mp h
  simpa using this

theorem orderedInsert_pairwise (le : α → α → Bool) (a : α) (l : List α)
    (htot : ∀ b ∈ l, le a b = true ∨ le b a = true)
    (htrans : ∀ x ∈ a :: l, ∀ y ∈ a :: l, ∀ z ∈ a :: l,
      le x y = true → le y z = true → le x z = true)
    (hl : l.Pairwise (fun x y => le x y = true)) :
    (orderedInsert le a l).Pairwise (fun x y => le x y = true) := by
  induction l with
  | nil => simp [orderedInsert]
  | cons b t ih =>
    rcases List.pairwise_cons.mp hl with ⟨hb, ht⟩
    simp only [orderedInsert]
    by_cases h : le a b = true
    · simp only [h, if_true]
      refine List.pairwise_cons.mpr ⟨?_, hl⟩
      intro y hy
      rcases List.mem_cons.mp hy with rfl | hyt
      · exact h
      · exact htrans a (by simp) b (by simp) y (by simp [hyt]) h (hb y hyt)
    · simp only [h, if_false]
      refine List.pairwise_cons.mpr ⟨?_, ?_⟩
      · intro c hc
        rcases mem_orderedInsert hc with hca | hct
        · subst hca
          rcases htot b (by simp) with h' | h'
          · exact absurd h' h
          · exact h'
        · exact hb c hct
      · refine ih (fun c hc => htot c (by simp [hc]))
          (fun x hx y hy z hz => ?_) ht
        have sub : ∀ w, w ∈ a :: t → w ∈ a :: b :: t := by
          intro w hw
          rcases List.mem_cons.mp hw with rfl | hw
          · simp
          · simp [hw]
        exact htrans x (sub x hx) y (sub y hy) z (sub z hz)

theorem jsSort_pairwise (le : α → α → Bool) (l : List α)
    (htot : ∀ a ∈ l, ∀ b ∈ l, le a b = true ∨ le b a = true)
    (htrans : ∀ x ∈ l, ∀ y ∈ l, ∀ z ∈ l,
      le x y = true → le y z = true → le x z = true) :
    (jsSort le l).Pairwise (fun x y => le x y = true) := by
  induction l with
  | nil => simp [jsSort]
  | cons a t ih =>
    have hmem : ∀ b ∈ jsSort le t, b ∈ t := fun b hb =>
      (jsSort_perm le t).mem_iff.mp hb
    refine orderedInsert_pairwise le a (jsSort le t)
      (fun b hb => htot a (by simp) b (by simp [hmem b hb]))
      (fun x hx y hy z hz => ?_)
      (ih (fun x hx y hy => htot x (by simp [hx]) y (by simp [hy]))
        (fun x hx y hy z hz => htrans x (by simp [hx]) y (by simp [hy]) z (by simp [hz])))
    have sub : ∀ w, w ∈ a :: jsSort le t → w ∈ a :: t := by
      intro w hw
      rcases List.mem_cons.mp hw with rfl | hw
      · simp
      · simp [hmem w hw]
    exact htrans x (sub x hx) y (sub y hy) z (sub z hz)

/-! Lemmas about promise joining. -/

theorem collectOks_eq_ok {ts : List (Except JsError α)} {l : List α} :
    collectOks ts = .ok l ↔ ts = l.map Except.ok := by
  induction ts generalizing l with
  | nil =>
    cases l with
    | nil => simp [collectOks]
    | cons b m => simp [collectOks]
  | cons t ts ih =>
    cases t with
    | error e =>
      cases l with
      | nil => simp [collectOks]
      | cons b m => simp [collectOks]
    | ok a =>
      cases l with
      | nil =>
        simp only [collectOks, List.map_nil]
        constructor
        · intro h
          cases hc : collectOks ts with
          | error e => rw [hc] at h; exact absurd h (by simp)
          | ok as => rw [hc] at h; exact absurd h (by simp)
        · intro h
          exact absurd h (by simp)
      | cons b m =>
        simp only [collectOks, List.map_cons]
        constructor
        · intro h
          cases hc : collectOks ts with
          | error e => rw [hc] at h; exact absurd h (by simp)
          | ok as =>
            rw [hc] at h
            have hab : a = b ∧ as = m := by
              have := Except.ok.inj h
              exact ⟨List.head_eq_of_cons_eq this, List.tail_eq_of_cons_eq this⟩
            rcases hab with ⟨rfl, rfl⟩
            have := ih.mp hc
            rw [this]
        · intro h
          have h1 : (Except.ok a : Except JsError α) = .ok b :=
            List.head_eq_of_cons_eq h
          have h2 : ts = m.map Except.ok := List.tail_eq_of_cons_eq h
          have hc := ih.mpr h2
          rw [hc, Except.ok.inj h1]

theorem collectOks_exists_of_all_ok {ts : List (Except JsError α)}
    (h : ∀ t ∈ ts, ∃ a, t = .ok a) : ∃ l, collectOks ts = .ok l := by
  induction ts with
  | nil => exact ⟨[], rfl⟩
  | cons t ts ih =>
    rcases h t (by simp) with ⟨a, rfl⟩
    rcases ih (fun t' ht' => h t' (by simp [ht'])) with ⟨l, hl⟩
    exact ⟨a :: l, by simp [collectOks, hl]⟩

theorem firstSettledError_eq_none {ts : List (Except JsError α)}
    (h : ∀ t ∈ ts, ∃ a, t = .ok a) (sched : List Nat) :
    firstSettledError ts sched = none := by
  induction sched with
  | nil => rfl
  | cons i rest ih =>
    simp only [firstSettledError]
    cases hi : ts[i]? with
    | none => exact ih
    | some t =>
      rcases h t (List.getElem?_mem hi) with ⟨a, rfl⟩
      exact ih

theorem firstSettledError_ne_none {ts : List (Except JsError α)} {i : Nat}
    {e : JsError} (hi : ts[i]? = some (.error e)) {sched : List Nat}
    (hmem : i ∈ sched) : ∃ e', firstSettledError ts sched = some e' := by
  induction sched with
  | nil => exact absurd hmem (by simp)
  | cons j rest ih =>
    simp only [firstSettledError]
    rcases List.mem_cons.mp hmem with rfl | hmem'
    · rw [hi]
      exact ⟨e, rfl⟩
    · cases hj : ts[j]? with
      | none => exact ih hmem'
      | some t =>
        cases t with
        | error e' => exact ⟨e', rfl⟩
        | ok a => exact ih hmem'

theorem promiseAll_eq_collectOks {ts : List (Except JsError α)}
    (h : ∀ t ∈ ts, ∃ a, t = .ok a) (sched : List Nat) :
    promiseAll ts sched = collectOks ts := by
  simp [promiseAll, firstSettledError_eq_none h sched]

theorem promiseAll_eq_ok {ts : List (Except JsError α)} {sched : List Nat}
    {l : List α} (h : promiseAll ts sched = .ok l) : collectOks ts = .ok l := by
  unfold promiseAll at h
  cases hf : firstSettledError ts sched with
  | none => rw [hf] at h; exact h
  | some e => rw [hf] at h; exact absurd h (by simp)

theorem all_ok_of_collectOks {ts : List (Except JsError α)} {l : List α}
    (h : collectOks ts = .ok l) : ∀ t ∈ ts, ∃ a, t = .ok a := by
  intro t ht
  rw [collectOks_eq_ok.mp h] at ht
  rcases List.mem_map.mp ht with ⟨a, _, rfl⟩
  exact ⟨a, rfl⟩

/-! Unfolding lemmas for the aggregator. -/

theorem getAllArticles_def (env : JsEnv) (sched : List Nat) (incl : Bool) :
    getAllArticles env sched incl =
      match promiseAll (articleTasks env) sched with
      | .error e => .error e
      | .ok arts =>
        .ok (jsSort (sortLe env.jsDate)
          (if incl then arts else arts.filter isPrivateFalsy)) := rfl

theorem getAllArticles_eq_ok {env : JsEnv} {sched : List Nat} {incl : Bool}
    {l : List ArticleWithSlug} :
    getAllArticles env sched incl = .ok l ↔
      ∃ arts, promiseAll (articleTasks env) sched = .ok arts ∧
        l = jsSort (sortLe env.jsDate)
          (if incl then arts else arts.filter isPrivateFalsy) := by
  rw [getAllArticles_def]
  cases hp : promiseAll (articleTasks env) sched with
  | error e => simp [hp]
  | ok arts =>
    simp only [Except.ok.injEq, hp]
    constructor
    · intro h
      exact ⟨arts, rfl, h.symm⟩
    · rintro ⟨arts', harts', rfl⟩
      rw [harts']

theorem getAllArticles_of_collectOks {env : JsEnv} {arts : List ArticleWithSlug}
    (h : collectOks (articleTasks env) = .ok arts) (sched : List Nat) (incl : Bool) :
    getAllArticles env sched incl =
      .ok (jsSort (sortLe env.jsDate)
        (if incl then arts else arts.filter isPrivateFalsy)) := by
  refine getAllArticles_eq_ok.mpr ⟨arts, ?_, rfl⟩
  rw [promiseAll_eq_collectOks (all_ok_of_collectOks h) sched, h]

/-! Lemmas about the comparator ordering. -/

theorem sortLe_total (jsDate : String → Option Int) (a b : ArticleWithSlug) :
    sortLe jsDate a b = true ∨ sortLe jsDate b a = true := by
  rcases ha : jsDateVal jsDate a.date with _ | ta
  · rcases hb : jsDateVal jsDate b.date with _ | tb
    · simp [sortLe, sortCompare, ha, hb]
    · simp [sortLe, sortCompare, ha, hb]
  · rcases hb : jsDateVal jsDate b.date with _ | tb
    · simp [sortLe, sortCompare, ha, hb]
    · simp [sortLe, sortCompare, ha, hb]
      omega

theorem sortLe_trans_of_parse {jsDate : String → Option Int}
    {x y z : ArticleWithSlug} {tx ty tz : Int}
    (hx : jsDateVal jsDate x.date = some tx)
    (hy : jsDateVal jsDate y.date = some ty)
    (hz : jsDateVal jsDate z.date = some tz)
    (hxy : sortLe jsDate x y = true) (hyz : sortLe jsDate y z = true) :
    sortLe jsDate x z = true := by
  simp only [sortLe, sortCompare, hx, hy, hz] at hxy hyz ⊢
  simp at hxy hyz ⊢
  omega

theorem sortLe_iff_of_parse {jsDate : String → Option Int}
    {a b : ArticleWithSlug} {ta tb : Int}
    (ha : jsDateVal jsDate a.date = some ta)
    (hb : jsDateVal jsDate b.date = some tb) :
    (sortLe jsDate a b = true ↔ tb ≤ ta) := by
  simp only [sortLe, sortCompare, ha, hb]
  simp

/-! Lemmas about single-unit import. -/

theorem importArticle_error {importFn : Filename → Except JsError JsModule}
    {f : Filename} {e : JsError} (h : importFn f = .error e) :
    importArticle importFn f = .error e := by
  unfold importArticle
  rw [h]

theorem importArticle_exists_ok {importFn : Filename → Except JsError JsModule}
    {f : Filename} (h : (importFn f).isOk = true) :
    ∃ r, importArticle importFn f = .ok r := by
  cases hm : importFn f with
  | error e => rw [hm] at h; simp [Except.isOk, Except.toBool] at h
  | ok m =>
    refine ⟨spreadArticle (stripArticleSuffix f) m.article, ?_⟩
    unfold importArticle
    rw [hm]

/-! Lemmas about discovery and slug derivation. -/

theorem articleMatch_eq_some {p : List Segment} {fname : Filename} :
    articleMatch p = some fname ↔
      ∃ d, d ≠ [] ∧ '/' ∉ d ∧ p = [d, pageMdx] ∧ fname = d ++ '/' :: pageMdx := by
  constructor
  · intro h
    match p with
    | [] => exact absurd h (by simp [articleMatch])
    | [d] => exact absurd h (by simp [articleMatch])
    | [d, f] =>
      simp only [articleMatch] at h
      by_cases hcond : d ≠ [] ∧ '/' ∉ d ∧ f = pageMdx
      · rw [if_pos hcond] at h
        rcases hcond with ⟨h1, h2, rfl⟩
        exact ⟨d, h1, h2, rfl, (Option.some.inj h).symm⟩
      · rw [if_neg hcond] at h
        exact absurd h (by simp)
    | d :: f :: g :: t => exact absurd h (by simp [articleMatch])
  · rintro ⟨d, h1, h2, rfl, rfl⟩
    simp only [articleMatch]
    rw [if_pos ⟨h1, h2, trivial⟩]

theorem mem_globArticles {fs : List (List Segment)} {fname : Filename} :
    fname ∈ globArticles fs ↔
      ∃ d, d ≠ [] ∧ '/' ∉ d ∧ [d, pageMdx] ∈ fs ∧
        fname = d ++ '/' :: pageMdx := by
  unfold globArticles
  rw [List.mem_filterMap]
  constructor
  · rintro ⟨p, hp, hsome⟩
    rcases articleMatch_eq_some.mp hsome with ⟨d, h1, h2, rfl, rfl⟩
    exact ⟨d, h1, h2, hp, rfl⟩
  · rintro ⟨d, h1, h2, hmem, rfl⟩
    exact ⟨[d, pageMdx], hmem, articleMatch_eq_some.mpr ⟨d, h1, h2, rfl, rfl⟩⟩

theorem stripArticleSuffix_append (d : Filename) :
    stripArticleSuffix (d ++ '/' :: pageMdx) = d := by
  have hsfx : pageSuffixChars = '/' :: pageMdx := rfl
  unfold stripArticleSuffix
  rw [if_pos (hsfx ▸ List.suffix_append d ('/' :: pageMdx))]
  have hlen : ('/' :: pageMdx).length = 9 := rfl
  rw [List.length_append, hlen]
  have h9 : d.length + 9 - 9 = d.length := by omega
  rw [h9]
  exact List.take_left d ('/' :: pageMdx)

/-! Sortedness of the produced chain. -/

theorem chain'_of_pairwise_mem {α : Type} {R S : α → α → Prop} {l : List α}
    (h : l.Pairwise R) (himp : ∀ a ∈ l, ∀ b ∈ l, R a b → S a b) :
    l.Chain' S :=
  (h.imp_of_mem (fun ha hb hr => himp _ ha _ hb hr)).chain'

theorem sorted_output_chain (jsDate : String → Option Int)
    (fl : List ArticleWithSlug)
    (hdates : ∀ a ∈ jsSort (sortLe jsDate) fl,
      ∃ t, jsDateVal jsDate a.date = some t) :
    (jsSort (sortLe jsDate) fl).Chain' (fun a b => ∃ ta tb,
      jsDateVal jsDate a.date = some ta ∧
      jsDateVal jsDate b.date = some tb ∧ tb ≤ ta) := by
  have hmem : ∀ a ∈ fl, ∃ t, jsDateVal jsDate a.date = some t := fun a ha =>
    hdates a ((jsSort_perm (sortLe jsDate) fl).mem_iff.mpr ha)
  have hpw := jsSort_pairwise (sortLe jsDate) fl
    (fun a _ b _ => sortLe_total jsDate a b)
    (fun x hx y hy z hz hxy hyz => by
      rcases hmem x hx with ⟨tx, htx⟩
      rcases hmem y hy with ⟨ty, hty⟩
      rcases hmem z hz with ⟨tz, htz⟩
      exact sortLe_trans_of_parse htx hty htz hxy hyz)
  refine chain'_of_pairwise_mem hpw ?_
  intro a ha b hb hab
  rcases hdates a ha with ⟨ta, hta⟩
  rcases hdates b hb with ⟨tb, htb⟩
  exact ⟨ta, tb, hta, htb, (sortLe_iff_of_parse hta htb).mp hab⟩

/-! The claims. -/

/-- C2: for every set of content units, `getAllArticles(false)` returns
exactly the subset of the records returned by `getAllArticles(true)` whose
`isPrivate` field is falsy — no record of that subset duplicated or
dropped — and with `includePrivate = true` every loaded record is
retained, including the private ones. -/
theorem C2_visibility_filter (env : JsEnv) (sched : List Nat)
    (l1 l2 : List ArticleWithSlug)
    (h1 : getAllArticles env sched true = .ok l1)
    (h2 : getAllArticles env sched false = .ok l2) :
    l2.Perm (l1.filter isPrivateFalsy) ∧
      ∃ arts, collectOks (articleTasks env) = .ok arts ∧ l1.Perm arts := by
  rcases getAllArticles_eq_ok.mp h1 with ⟨arts, hp, rfl⟩
  rcases getAllArticles_eq_ok.mp h2 with ⟨arts', hp', rfl⟩
  rw [hp] at hp'
  obtain rfl : arts = arts' := Except.ok.inj hp'
  simp only [if_true, Bool.false_eq_true, if_false]
  refine ⟨?_, arts, promiseAll_eq_ok hp, jsSort_perm _ _⟩
  refine (jsSort_perm _ _).trans ?_
  exact ((jsSort_perm (sortLe env.jsDate) arts).filter isPrivateFalsy).symm

theorem C2_visibility_filter_witness :
    ([recB, recA] : List ArticleWithSlug).Perm
        (([recC, recB, recA] : List ArticleWithSlug).filter isPrivateFalsy) ∧
      ∃ arts, collectOks (articleTasks envGood) = .ok arts ∧
        ([recC, recB, recA] : List ArticleWithSlug).Perm arts :=
  C2_visibility_filter envGood [0, 1, 2] [recC, recB, recA] [recB, recA]
    (by decide) (by decide)

/-- C3: every sequence returned by `getAllArticles` whose records all carry
a parseable date is sorted by publication date descending: for every
adjacent pair `(a, b)`, the date value of `a` is at least that of `b`. -/
theorem C3_sorted_descending (env : JsEnv) (sched : List Nat) (incl : Bool)
    (l : List ArticleWithSlug) (h : getAllArticles env sched incl = .ok l)
    (hdates : ∀ a ∈ l, ∃ t, jsDateVal env.jsDate a.date = some t) :
    l.Chain' (fun a b => ∃ ta tb,
      jsDateVal env.jsDate a.date = some ta ∧
      jsDateVal env.jsDate b.date = some tb ∧ tb ≤ ta) := by
  rcases getAllArticles_eq_ok.mp h with ⟨arts, hp, rfl⟩
  exact sorted_output_chain env.jsDate _ hdates

theorem C3_sorted_descending_witness :
    ([recC, recB, recA] : List ArticleWithSlug).Chain' (fun a b => ∃ ta tb,
      jsDateVal envGood.jsDate a.date = some ta ∧
      jsDateVal envGood.jsDate b.date = some tb ∧ tb ≤ ta) :=
  C3_sorted_descending envGood [0, 1, 2] true [recC, recB, recA] (by decide)
    (by
      intro a ha
      rcases List.mem_cons.mp ha with rfl | ha
      · exact ⟨300, by decide⟩
      rcases List.mem_cons.mp ha with rfl | ha
      · exact ⟨200, by decide⟩
      rcases List.mem_cons.mp ha with rfl | ha
      · exact ⟨100, by decide⟩
      exact absurd ha (by simp))

/-- C4: if the dynamic import of any single discovered content unit
rejects, the whole `getAllArticles` call rejects: no partial result
sequence is returned. -/
theorem C4_import_failure_fatal (env : JsEnv) (sched : List Nat) (incl : Bool)
    (f : Filename) (e : JsError) (hf : f ∈ globArticles env.fs)
    (he : env.importFn f = .error e)
    (hsched : sched.Perm (List.range (articleTasks env).length)) :
    ∃ fail, getAllArticles env sched incl = .error fail := by
  obtain ⟨i, hi, hgi⟩ := List.getElem_of_mem hf
  have hlen : i < (articleTasks env).length := by
    unfold articleTasks
    simpa using hi
  have htask : (articleTasks env)[i]? = some (.error e) := by
    unfold articleTasks
    rw [List.getElem?_map, List.getElem?_eq_getElem hi]
    simp [hgi, importArticle_error he]
  have hmem : i ∈ sched := hsched.mem_iff.mpr (List.mem_range.mpr hlen)
  rcases firstSettledError_ne_none htask hmem with ⟨fail, hfail⟩
  refine ⟨fail, ?_⟩
  rw [getAllArticles_def]
  unfold promiseAll
  rw [hfail]

theorem C4_import_failure_fatal_witness :
    ∃ fail, getAllArticles envReject [0, 1] false = .error fail :=
  C4_import_failure_fatal envReject [0, 1] false fnameB "SyntaxError"
    (by decide) (by decide) (by decide)

/-- C5: the output of `getAllArticles` is a deterministic function of the
discovered file names and the declared metadata alone: two runs differing
only in the settle order of the per-unit loads produce identical output,
element for element — in particular records sharing a date keep the same
relative order across runs. -/
theorem C5_load_order_independent (env : JsEnv) (s1 s2 : List Nat)
    (incl : Bool) (l : List ArticleWithSlug)
    (h : getAllArticles env s1 incl = .ok l) :
    getAllArticles env s2 incl = .ok l := by
  rcases getAllArticles_eq_ok.mp h with ⟨arts, hp, rfl⟩
  exact getAllArticles_of_collectOks (promiseAll_eq_ok hp) s2 incl

theorem C5_load_order_independent_witness :
    getAllArticles envGood [2, 0, 1] false = .ok [recB, recA] :=
  C5_load_order_independent envGood [0, 1, 2] [2, 0, 1] false [recB, recA]
    (by decide)

/-- C6: every discovered file name has the form
`<subdirectory>/page.mdx`, and its derived slug is exactly that file name
with the fixed trailing `/page.mdx` stripped, i.e. the subdirectory name;
the derivation is a pure function of the file name, so repeated calls on a
fixed layout produce identical slugs. -/
theorem C6_slug_derivation (fs : List (List Segment)) (fname : Filename)
    (h : fname ∈ globArticles fs) :
    ∃ d, fname = d ++ '/' :: pageMdx ∧ stripArticleSuffix fname = d := by
  rcases mem_globArticles.mp h with ⟨d, _, _, _, rfl⟩
  exact ⟨d, rfl, stripArticleSuffix_append d⟩

theorem C6_slug_derivation_witness :
    ∃ d, fnameA = d ++ '/' :: pageMdx ∧ stripArticleSuffix fnameA = d :=
  C6_slug_derivation envGood.fs fnameA (by decide)

/-- C7: when discovery finds zero matching content units (empty content
root, or no subdirectory holding `page.mdx`), `getAllArticles` succeeds
and returns the empty sequence rather than raising an error. -/
theorem C7_empty_root (env : JsEnv) (sched : List Nat) (incl : Bool)
    (h : globArticles env.fs = []) :
    getAllArticles env sched incl = .ok [] := by
  have htasks : articleTasks env = [] := by
    unfold articleTasks
    rw [h]
    rfl
  rw [getAllArticles_def, htasks,
    promiseAll_eq_collectOks (by intro t ht; exact absurd ht (by simp)) sched]
  cases incl <;> simp [collectOks, jsSort]

theorem C7_empty_root_witness : getAllArticles envEmpty [] true = .ok [] :=
  C7_empty_root envEmpty [] true (by decide)

/-- C8: the locator matches exactly the paths consisting of one immediate
subdirectory of the content root followed by the fixed entry file name
`page.mdx`: deeper paths never match, and a subdirectory lacking the entry
file name contributes no record and no error. -/
theorem C8_locator_pattern (fs : List (List Segment)) (fname : Filename) :
    fname ∈ globArticles fs ↔
      ∃ d, d ≠ [] ∧ '/' ∉ d ∧ [d, pageMdx] ∈ fs ∧
        fname = d ++ '/' :: pageMdx :=
  mem_globArticles

/-- C9: the output record spreads the unit's `article` export over an
object whose `slug` is assigned first, so a `slug` property carried by the
metadata export overrides the derived slug in the returned record. -/
theorem C9_metadata_slug_overrides
    (importFn : Filename → Except JsError JsModule) (f : Filename)
    (m : JsModule) (a : Article) (s : Filename) (hm : importFn f = .ok m)
    (ha : m.article = some a) (hs : a.slug = some s) :
    ∃ r, importArticle importFn f = .ok r ∧ r.slug = s := by
  refine ⟨spreadArticle (stripArticleSuffix f) m.article, ?_, ?_⟩
  · unfold importArticle
    rw [hm]
  · rw [ha]
    simp [spreadArticle, hs]

theorem C9_metadata_slug_overrides_witness :
    (∃ r, importArticle importSlugged fnameA = .ok r ∧ r.slug = "evil".data) ∧
      stripArticleSuffix fnameA ≠ "evil".data :=
  ⟨C9_metadata_slug_overrides importSlugged fnameA
      { article := some articleSlugged } articleSlugged "evil".data
      (by decide) rfl rfl,
    by decide⟩

/-- C1 counterexample: a collection of two content units in which exactly
one is malformed (its `article` export lacks the `date` field): the call
does not fail — it returns both records, the malformed one included with
its fields undefined — refuting "the call fails entirely and returns zero
of the N records". -/
theorem C1_missing_date_counterexample :
    getAllArticles envTwo [0, 1] false = .ok [recA, recNoDate] ∧
      ([recA, recNoDate] : List ArticleWithSlug).length = 2 := by
  constructor
  · decide
  · rfl

/-- C1 amended: a malformed metadata export (missing entirely, or lacking
a required field such as `date`) does not fail the call: whenever every
discovered unit's module import itself resolves, `getAllArticles` succeeds
and — with `includePrivate` — returns all N records.  Only a rejecting
module load makes the call fail. -/
theorem C1_shape_error_not_fatal (env : JsEnv) (sched : List Nat)
    (hok : ∀ f ∈ globArticles env.fs, (env.importFn f).isOk = true) :
    ∃ l, getAllArticles env sched true = .ok l ∧
      l.length = (globArticles env.fs).length := by
  have hall : ∀ t ∈ articleTasks env, ∃ r, t = .ok r := by
    intro t ht
    unfold articleTasks at ht
    rcases List.mem_map.mp ht with ⟨f, hf, rfl⟩
    exact importArticle_exists_ok (hok f hf)
  rcases collectOks_exists_of_all_ok hall with ⟨arts, harts⟩
  refine ⟨jsSort (sortLe env.jsDate) arts, ?_, ?_⟩
  · have h := getAllArticles_of_collectOks harts sched true
    simpa using h
  · have h1 := (jsSort_perm (sortLe env.jsDate) arts).length_eq
    have h2 : (articleTasks env).length = arts.length := by
      rw [collectOks_eq_ok.mp harts]
      simp
    have h3 : (articleTasks env).length = (globArticles env.fs).length := by
      unfold articleTasks
      simp
    omega

theorem C1_shape_error_not_fatal_witness :
    ∃ l, getAllArticles envTwo [0, 1] true = .ok l ∧
      l.length = (globArticles envTwo.fs).length :=
  C1_shape_error_not_fatal envTwo [0, 1] (by decide)

/-- C10: the sort step is total — whenever every per-unit import resolves,
`getAllArticles` returns a sequence, never an error, whatever the `date`
strings are — and that sequence is a permutation of the filtered records:
every filtered record appears exactly once, even when some dates are
unparseable. -/
theorem C10_sort_total_permutation (env : JsEnv) (sched : List Nat)
    (incl : Bool) (arts : List ArticleWithSlug)
    (h : collectOks (articleTasks env) = .ok arts) :
    ∃ l, getAllArticles env sched incl = .ok l ∧
      l.Perm (if incl then arts else arts.filter isPrivateFalsy) :=
  ⟨_, getAllArticles_of_collectOks h sched incl, jsSort_perm _ _⟩

theorem C10_sort_total_permutation_witness :
    ∃ l, getAllArticles envTwo [1, 0] false = .ok l ∧
      l.Perm (if false then [recA, recNoDate]
        else ([recA, recNoDate] : List ArticleWithSlug).filter isPrivateFalsy) :=
  C10_sort_total_permutation envTwo [1, 0] false [recA, recNoDate] (by decide)
